import Mathlib

/-!
Verification of the transaction-admission layer (Mempool Manager) of the
chia-blockchain repository, against its natural-language specification.

The repository snapshot under review exposes only the callers of the mempool
engine (the long-lived mempool benchmark and the fee-estimation RPC tests);
the engine itself (Mempool, MempoolManager, the get_fee_estimate endpoint) is
not part of the snapshot.  Following the spec, each of those missing pieces is
modelled here as an executable Lean definition whose doc comment starts with
"Modelled from the spec:" and which follows the spec text for that operation.
-/

set_option maxRecDepth 8000

namespace ChiaMempool

/-- Coin identifiers, modelled as naturals standing for 32-byte hashes. -/
abbrev CoinId := Nat

/-- Spend-bundle identifiers (content hashes), modelled as naturals. -/
abbrev BundleId := Nat

/-- Modelled from the spec: the normalized condition kinds carried by a
validated spend (coin creation and the absolute time-lock assertions used by
peak re-validation). -/
inductive Condition where
  | createCoin (puzzleHash : Nat) (amount : Nat)
  | assertHeightAbsolute (h : Nat)
  | assertBeforeHeightAbsolute (h : Nat)
  | assertSecondsAbsolute (s : Nat)
  | assertBeforeSecondsAbsolute (s : Nat)
  deriving DecidableEq, Repr

/-- Modelled from the spec: the admitted, validated representation of a spend
bundle inside the pool: bundle id, execution cost, fee, the coin ids it
consumes, its normalized conditions, and an admission sequence number used for
eviction tie-breaking. -/
structure MempoolItem where
  id : BundleId
  cost : Nat
  fee : Nat
  spentCoins : List CoinId
  conditions : List Condition
  admissionTime : Nat
  deriving DecidableEq, Repr

/-- Modelled from the spec: the pool container (missing from the snapshot),
holding the pending items, the configured cost ceiling, and the minimum
fee-rate increase factor (numerator over denominator) required for a
conflicting replacement. -/
structure Mempool where
  items : List MempoolItem
  maxTotalCost : Nat
  minIncreaseNum : Nat
  minIncreaseDen : Nat
  deriving DecidableEq, Repr

/-- Sum of the execution costs of a list of items. -/
def totalItemCost (items : List MempoolItem) : Nat :=
  (items.map MempoolItem.cost).sum

/-- Modelled from the spec: total execution cost of all items currently in the
pool (the total_cost / total_mempool_cost accessor). -/
def total_mempool_cost (pool : Mempool) : Nat :=
  totalItemCost pool.items

/-- Modelled from the spec: number of items currently in the pool. -/
def Mempool.size (pool : Mempool) : Nat :=
  pool.items.length

/-- Two coin-id lists are disjoint (boolean form). -/
def disjointCoins (xs ys : List CoinId) : Bool :=
  xs.all (fun c => !(ys.contains c))

/-- Item a conflicts with item b when they consume a common coin id. -/
def coinsConflict (a b : MempoolItem) : Bool :=
  a.spentCoins.any (fun c => b.spentCoins.contains c)

/-- The pending items that conflict with a candidate item. -/
def conflictsOf (pool : Mempool) (item : MempoolItem) : List MempoolItem :=
  pool.items.filter (fun c => coinsConflict c item)

/-- Modelled from the spec: the candidate item beats the pending item c in
fee-per-cost by at least the minimum replacement factor num/den, compared by
cross-multiplication. -/
def replacesOk (num den : Nat) (c item : MempoolItem) : Bool :=
  decide (c.fee * item.cost * num ≤ item.fee * c.cost * den)

/-- Modelled from the spec: eviction order, lowest fee-per-cost first, with
ties broken by earliest admission time (a is evicted before b). -/
def worseThan (a b : MempoolItem) : Bool :=
  decide (a.fee * b.cost < b.fee * a.cost) ||
    (decide (a.fee * b.cost = b.fee * a.cost) && decide (a.admissionTime < b.admissionTime))

/-- Select the single worst item among a and the list; returns that item and
the remaining items. -/
def selectWorst (a : MempoolItem) : List MempoolItem → MempoolItem × List MempoolItem
  | [] => (a, [])
  | b :: l =>
      if worseThan b a then
        ((selectWorst b l).1, a :: (selectWorst b l).2)
      else
        ((selectWorst a l).1, b :: (selectWorst a l).2)

/-- Modelled from the spec: while total cost exceeds the ceiling, repeatedly
evict the single lowest fee-per-cost item; the fuel argument is instantiated
with the list length, which makes this recursion extensionally the while loop
of the spec. -/
def evictLoop : Nat → Nat → List MempoolItem → List MempoolItem
  | 0, _, _ => []
  | fuel + 1, maxCost, items =>
      if totalItemCost items ≤ maxCost then items
      else
        match items with
        | [] => []
        | x :: xs => evictLoop fuel maxCost (selectWorst x xs).2

/-- Modelled from the spec: capacity enforcement after an insertion. -/
def enforceCapacity (pool : Mempool) : Mempool :=
  { pool with items := evictLoop pool.items.length pool.maxTotalCost pool.items }

/-- Reasons a candidate item can be rejected by the pool. -/
inductive RejectReason where
  | feeRateTooLowToStay
  | conflictingFeeTooLow
  deriving DecidableEq, Repr

/-- Result of Mempool.try_add. -/
inductive AddResult where
  | added
  | replaced (evictedIds : List BundleId)
  | rejected (reason : RejectReason)
  deriving DecidableEq, Repr

/-- An add result that actually admitted the item. -/
def AddResult.isAccepted : AddResult → Bool
  | .rejected _ => false
  | _ => true

/-- Modelled from the spec: try_add.  A candidate whose coins conflict with
pending items is accepted only when its fee-per-cost beats every conflicting
item by at least the minimum-increase factor, in which case all conflicting
items are evicted transactionally; otherwise the candidate is inserted
directly, subject to capacity.  If capacity eviction would evict the candidate
itself, the whole operation behaves as a rejection and leaves the pool
unchanged. -/
def try_add (pool : Mempool) (item : MempoolItem) : AddResult × Mempool :=
  let conflicts := conflictsOf pool item
  if conflicts.isEmpty then
    let afterCap := enforceCapacity { pool with items := item :: pool.items }
    if afterCap.items.contains item then (AddResult.added, afterCap)
    else (AddResult.rejected RejectReason.feeRateTooLowToStay, pool)
  else
    if conflicts.all (fun c => replacesOk pool.minIncreaseNum pool.minIncreaseDen c item) then
      let kept := pool.items.filter (fun c => !(coinsConflict c item))
      let afterCap := enforceCapacity { pool with items := item :: kept }
      if afterCap.items.contains item then
        (AddResult.replaced (conflicts.map MempoolItem.id), afterCap)
      else (AddResult.rejected RejectReason.feeRateTooLowToStay, pool)
    else (AddResult.rejected RejectReason.conflictingFeeTooLow, pool)

/-- Modelled from the spec: remove every item that consumes any of the given
coin ids; returns the removed items and the remaining pool. -/
def remove_by_coin_ids (pool : Mempool) (coinIds : List CoinId) :
    List MempoolItem × Mempool :=
  (pool.items.filter (fun it => it.spentCoins.any (fun c => coinIds.contains c)),
   { pool with
      items := pool.items.filter (fun it => !(it.spentCoins.any (fun c => coinIds.contains c))) })

/-- Modelled from the spec: direct removal by bundle id. -/
def remove_by_ids (pool : Mempool) (ids : List BundleId) : Mempool :=
  { pool with items := pool.items.filter (fun it => !(ids.contains it.id)) }

/-- The subset of a block record that the mempool manager uses for its peak. -/
structure BlockRecord where
  headerHash : Nat
  height : Nat
  timestamp : Nat
  deriving DecidableEq, Repr

/-- Modelled from the spec: a condition that is still satisfiable at or after
the given peak (absolute before-height and before-seconds assertions fail once
the peak passes them). -/
def condSatisfiable (rec : BlockRecord) : Condition → Bool
  | .assertBeforeHeightAbsolute h => decide (rec.height < h)
  | .assertBeforeSecondsAbsolute s => decide (rec.timestamp < s)
  | _ => true

/-- Consensus constants consumed by pre-validation. -/
structure Constants where
  maxTxCost : Nat
  deriving DecidableEq, Repr

/-- Mempool manager state: the owned pool, the current peak pointer, and the
consensus constants. -/
structure ManagerState where
  mempool : Mempool
  peak : Option BlockRecord
  constants : Constants
  deriving DecidableEq, Repr

/-- Modelled from the spec: new_peak.  A duplicate or out-of-order peak is
rejected, leaving state unchanged; otherwise items consuming the newly spent
coins are removed, items whose absolute assertions can no longer be satisfied
are removed, and the peak pointer advances. -/
def new_peak (st : ManagerState) (rec : BlockRecord) (spentCoinIds : List CoinId) :
    ManagerState :=
  let dup : Bool :=
    match st.peak with
    | some p => decide (rec.height ≤ p.height)
    | none => false
  if dup then st
  else
    let afterSpent := (remove_by_coin_ids st.mempool spentCoinIds).2
    let afterConds :=
      { afterSpent with
          items := afterSpent.items.filter (fun it => it.conditions.all (condSatisfiable rec)) }
    { st with mempool := afterConds, peak := some rec }

/-- One operation of a driver sequence: an admission, an eviction-style
removal, or a peak change. -/
inductive Op where
  | add (item : MempoolItem)
  | removeCoins (coinIds : List CoinId)
  | removeIds (ids : List BundleId)
  | peak (rec : BlockRecord) (spentCoinIds : List CoinId)

/-- Apply one operation to the manager state. -/
def applyOp (st : ManagerState) (op : Op) : ManagerState :=
  match op with
  | .add item => { st with mempool := (try_add st.mempool item).2 }
  | .removeCoins ids => { st with mempool := (remove_by_coin_ids st.mempool ids).2 }
  | .removeIds ids => { st with mempool := remove_by_ids st.mempool ids }
  | .peak rec ids => new_peak st rec ids

/-- Initial manager state: an empty pool with the configured cost ceiling and
replacement factor, and no peak yet. -/
def initState (maxTotalCost num den : Nat) (constants : Constants) : ManagerState :=
  { mempool := { items := [], maxTotalCost := maxTotalCost,
                 minIncreaseNum := num, minIncreaseDen := den },
    peak := none, constants := constants }

/-- Run a sequence of operations from a starting state. -/
def runOps (st : ManagerState) (ops : List Op) : ManagerState :=
  ops.foldl applyOp st

/-- Cost of a cons cell of items. -/
theorem totalItemCost_cons (x : MempoolItem) (xs : List MempoolItem) :
    totalItemCost (x :: xs) = x.cost + totalItemCost xs := by
  simp [totalItemCost]

/-- Filtering a list of items never increases its total cost. -/
theorem totalItemCost_filter_le (p : MempoolItem → Bool) (items : List MempoolItem) :
    totalItemCost (items.filter p) ≤ totalItemCost items := by
  induction items with
  | nil => simp
  | cons x xs ih =>
      by_cases h : p x
      · rw [List.filter_cons_of_pos h, totalItemCost_cons, totalItemCost_cons]
        omega
      · rw [List.filter_cons_of_neg h, totalItemCost_cons]
        omega

/-- The eviction loop always ends at or below the ceiling. -/
theorem evictLoop_le (fuel maxCost : Nat) (items : List MempoolItem) :
    totalItemCost (evictLoop fuel maxCost items) ≤ maxCost := by
  induction fuel generalizing items with
  | zero => simp [evictLoop, totalItemCost]
  | succ n ih =>
      cases items with
      | nil =>
          rw [evictLoop.eq_2]
          split
          · next h => exact h
          · simp [totalItemCost]
      | cons x xs =>
          rw [evictLoop.eq_3]
          split
          · next h => exact h
          · exact ih ((selectWorst x xs).2)

/-- The remainder after selecting the worst item is a subset of the inputs. -/
theorem selectWorst_snd_subset (l : List MempoolItem) (a : MempoolItem) :
    (selectWorst a l).2 ⊆ a :: l := by
  induction l generalizing a with
  | nil => simp [selectWorst]
  | cons b l ih =>
      rw [selectWorst]
      split
      · intro x hx
        rcases List.mem_cons.mp hx with h | h
        · simp [h]
        · have h2 := ih b h
          simp [List.mem_cons] at h2 ⊢
          tauto
      · intro x hx
        rcases List.mem_cons.mp hx with h | h
        · simp [h]
        · have h2 := ih a h
          simp [List.mem_cons] at h2 ⊢
          tauto

/-- Capacity eviction only ever removes items. -/
theorem evictLoop_subset (fuel maxCost : Nat) (items : List MempoolItem) :
    evictLoop fuel maxCost items ⊆ items := by
  induction fuel generalizing items with
  | zero => simp [evictLoop]
  | succ n ih =>
      cases items with
      | nil =>
          rw [evictLoop.eq_2]
          split
          · exact fun y hy => hy
          · simp
      | cons x xs =>
          rw [evictLoop.eq_3]
          split
          · exact fun y hy => hy
          · exact (ih ((selectWorst x xs).2)).trans (selectWorst_snd_subset xs x)

/-- Capacity enforcement lands at or below the pool ceiling. -/
theorem enforceCapacity_le (pool : Mempool) :
    totalItemCost (enforceCapacity pool).items ≤ (enforceCapacity pool).maxTotalCost :=
  evictLoop_le pool.items.length pool.maxTotalCost pool.items

/-- The three possible shapes of the pool returned by try_add: unchanged on
rejection, capacity-enforced direct insertion when there is no conflict, or
capacity-enforced insertion on top of the non-conflicting survivors. -/
theorem try_add_snd_cases (pool : Mempool) (item : MempoolItem) :
    (try_add pool item).2 = pool ∨
    ((conflictsOf pool item).isEmpty = true ∧
      (try_add pool item).2 = enforceCapacity { pool with items := item :: pool.items }) ∨
    (try_add pool item).2 =
      enforceCapacity
        { pool with items := item :: pool.items.filter (fun c => !(coinsConflict c item)) } := by
  by_cases h1 : (conflictsOf pool item).isEmpty = true
  · by_cases h2 :
      item ∈ (enforceCapacity { pool with items := item :: pool.items }).items
    · right; left; exact ⟨h1, by simp [try_add, h1, h2]⟩
    · left; simp [try_add, h1, h2]
  · by_cases h2 : (conflictsOf pool item).all
        (fun c => replacesOk pool.minIncreaseNum pool.minIncreaseDen c item) = true
    · by_cases h3 :
        item ∈ (enforceCapacity
          { pool with
              items := item :: pool.items.filter (fun c => !(coinsConflict c item)) }).items
      · right; right; simp [try_add, h1, h2, h3]
      · left; simp [try_add, h1, h2, h3]
    · left; simp [try_add, h1, h2]

/-- try_add never changes the configured ceiling. -/
theorem try_add_maxTotalCost (pool : Mempool) (item : MempoolItem) :
    ((try_add pool item).2).maxTotalCost = pool.maxTotalCost := by
  rcases try_add_snd_cases pool item with h | ⟨_, h⟩ | h <;> rw [h] <;> rfl

/-- The cost-ceiling invariant on a manager state. -/
def costInv (st : ManagerState) : Prop :=
  totalItemCost st.mempool.items ≤ st.mempool.maxTotalCost

/-- Every single operation preserves the cost-ceiling invariant. -/
theorem costInv_applyOp (st : ManagerState) (op : Op) (h : costInv st) :
    costInv (applyOp st op) := by
  cases op with
  | add item =>
      show totalItemCost ((try_add st.mempool item).2).items ≤
        ((try_add st.mempool item).2).maxTotalCost
      rcases try_add_snd_cases st.mempool item with hc | ⟨_, hc⟩ | hc
      · rw [hc]; exact h
      · rw [hc]; exact enforceCapacity_le _
      · rw [hc]; exact enforceCapacity_le _
  | removeCoins ids =>
      show totalItemCost (st.mempool.items.filter _) ≤ st.mempool.maxTotalCost
      exact le_trans (totalItemCost_filter_le _ _) h
  | removeIds ids =>
      show totalItemCost (st.mempool.items.filter _) ≤ st.mempool.maxTotalCost
      exact le_trans (totalItemCost_filter_le _ _) h
  | peak rec ids =>
      simp only [applyOp, new_peak]
      split
      · exact h
      · show totalItemCost ((st.mempool.items.filter _).filter _) ≤ st.mempool.maxTotalCost
        exact le_trans (totalItemCost_filter_le _ _) (le_trans (totalItemCost_filter_le _ _) h)

/-- The cost-ceiling invariant is preserved by arbitrary operation sequences. -/
theorem costInv_runOps (ops : List Op) (st : ManagerState) (h : costInv st) :
    costInv (runOps st ops) := by
  induction ops generalizing st with
  | nil => exact h
  | cons op ops ih => exact ih (applyOp st op) (costInv_applyOp st op h)

/-- No operation changes the configured ceiling. -/
theorem applyOp_maxTotalCost (st : ManagerState) (op : Op) :
    ((applyOp st op).mempool).maxTotalCost = st.mempool.maxTotalCost := by
  cases op with
  | add item => exact try_add_maxTotalCost st.mempool item
  | removeCoins ids => rfl
  | removeIds ids => rfl
  | peak rec ids =>
      simp only [applyOp, new_peak]
      split
      · rfl
      · rfl

/-- Operation sequences keep the configured ceiling. -/
theorem runOps_maxTotalCost (ops : List Op) (st : ManagerState) :
    ((runOps st ops).mempool).maxTotalCost = st.mempool.maxTotalCost := by
  induction ops generalizing st with
  | nil => rfl
  | cons op ops ih =>
      show ((runOps (applyOp st op) ops).mempool).maxTotalCost = st.mempool.maxTotalCost
      rw [ih (applyOp st op), applyOp_maxTotalCost]

/-- C1: after every operation in any sequence of admissions, evictions and
new_peak calls starting from an empty pool, the sum of the execution costs of
all items currently in the Mempool (total_mempool_cost) is at most the
configured maximum total cost. -/
theorem C1_cost_ceiling (maxTotalCost num den : Nat) (constants : Constants) (ops : List Op) :
    total_mempool_cost ((runOps (initState maxTotalCost num den constants) ops).mempool) ≤
      maxTotalCost := by
  have h0 : costInv (initState maxTotalCost num den constants) := by
    simp [costInv, initState, totalItemCost]
  have h1 := costInv_runOps ops (initState maxTotalCost num den constants) h0
  have h2 := runOps_maxTotalCost ops (initState maxTotalCost num den constants)
  unfold costInv at h1
  unfold total_mempool_cost
  rw [h2] at h1
  exact h1

/-- Membership form of coin-set disjointness. -/
theorem disjointCoins_iff (xs ys : List CoinId) :
    disjointCoins xs ys = true ↔ ∀ c ∈ xs, c ∉ ys := by
  simp [disjointCoins]

/-- Membership form of the conflict test being false. -/
theorem coinsConflict_false_iff (a b : MempoolItem) :
    coinsConflict a b = false ↔ ∀ c ∈ a.spentCoins, c ∉ b.spentCoins := by
  simp [coinsConflict]

/-- Items that do not conflict have disjoint consumed coin sets, both ways. -/
theorem disjoint_of_not_conflict (a b : MempoolItem) (h : coinsConflict a b = false) :
    disjointCoins a.spentCoins b.spentCoins = true ∧
      disjointCoins b.spentCoins a.spentCoins = true := by
  rw [coinsConflict_false_iff] at h
  constructor
  · rw [disjointCoins_iff]; exact h
  · rw [disjointCoins_iff]; intro c hc hmem; exact h c hmem hc

/-- After an accepted try_add, every remaining item is the new item itself or a
pre-existing item that does not conflict with it. -/
theorem try_add_accepted_mem (pool : Mempool) (item : MempoolItem)
    (hacc : ((try_add pool item).1).isAccepted = true) :
    ∀ x ∈ ((try_add pool item).2).items,
      x = item ∨ (x ∈ pool.items ∧ coinsConflict x item = false) := by
  by_cases h1 : (conflictsOf pool item).isEmpty = true
  · have hall : ∀ c ∈ pool.items, coinsConflict c item = false := by
      have h0 : conflictsOf pool item = [] := by
        cases he : conflictsOf pool item with
        | nil => rfl
        | cons y ys => rw [he] at h1; simp [List.isEmpty] at h1
      intro c hc
      by_contra hcontra
      have hcT : coinsConflict c item = true := by
        cases hcc : coinsConflict c item with
        | false => exact absurd hcc hcontra
        | true => rfl
      have : c ∈ conflictsOf pool item := List.mem_filter.mpr ⟨hc, hcT⟩
      rw [h0] at this
      cases this
    by_cases h2 : item ∈ (enforceCapacity { pool with items := item :: pool.items }).items
    · have hpost : (try_add pool item).2 =
          enforceCapacity { pool with items := item :: pool.items } := by
        simp [try_add, h1, h2]
      rw [hpost]
      intro x hx
      have hx2 : x ∈ item :: pool.items := evictLoop_subset _ _ _ hx
      rcases List.mem_cons.mp hx2 with h | h
      · exact Or.inl h
      · exact Or.inr ⟨h, hall x h⟩
    · have : ((try_add pool item).1).isAccepted = false := by
        simp [try_add, h1, h2, AddResult.isAccepted]
      rw [this] at hacc
      cases hacc
  · by_cases h2 : (conflictsOf pool item).all
        (fun c => replacesOk pool.minIncreaseNum pool.minIncreaseDen c item) = true
    · by_cases h3 :
        item ∈ (enforceCapacity
          { pool with
              items := item :: pool.items.filter (fun c => !(coinsConflict c item)) }).items
      · have hpost : (try_add pool item).2 =
            enforceCapacity
              { pool with
                  items := item :: pool.items.filter (fun c => !(coinsConflict c item)) } := by
          simp [try_add, h1, h2, h3]
        rw [hpost]
        intro x hx
        have hx2 : x ∈ item :: pool.items.filter (fun c => !(coinsConflict c item)) :=
          evictLoop_subset _ _ _ hx
        rcases List.mem_cons.mp hx2 with h | h
        · exact Or.inl h
        · have := List.mem_filter.mp h
          refine Or.inr ⟨this.1, ?_⟩
          have hb := this.2
          cases hcc : coinsConflict x item with
          | false => rfl
          | true => rw [hcc] at hb; cases hb
      · have : ((try_add pool item).1).isAccepted = false := by
          simp [try_add, h1, h2, h3, AddResult.isAccepted]
        rw [this] at hacc
        cases hacc
    · have : ((try_add pool item).1).isAccepted = false := by
        simp [try_add, h1, h2, AddResult.isAccepted]
      rw [this] at hacc
      cases hacc

/-- A try_add that did not accept leaves the pool unchanged (all-or-nothing). -/
theorem try_add_not_accepted_eq (pool : Mempool) (item : MempoolItem)
    (hrej : ((try_add pool item).1).isAccepted = false) :
    (try_add pool item).2 = pool := by
  by_cases h1 : (conflictsOf pool item).isEmpty = true
  · by_cases h2 : item ∈ (enforceCapacity { pool with items := item :: pool.items }).items
    · have : ((try_add pool item).1).isAccepted = true := by
        simp [try_add, h1, h2, AddResult.isAccepted]
      rw [this] at hrej; cases hrej
    · simp [try_add, h1, h2]
  · by_cases h2 : (conflictsOf pool item).all
        (fun c => replacesOk pool.minIncreaseNum pool.minIncreaseDen c item) = true
    · by_cases h3 :
        item ∈ (enforceCapacity
          { pool with
              items := item :: pool.items.filter (fun c => !(coinsConflict c item)) }).items
      · have : ((try_add pool item).1).isAccepted = true := by
          simp [try_add, h1, h2, h3, AddResult.isAccepted]
        rw [this] at hrej; cases hrej
      · simp [try_add, h1, h2, h3]
    · simp [try_add, h1, h2]

/-- A try_add that accepted a conflicting candidate did so because the
candidate beats every conflicting item by at least the minimum replacement
factor, and it reports exactly the conflicting items as evicted. -/
theorem try_add_conflict_accepted (pool : Mempool) (item : MempoolItem)
    (hconf : (conflictsOf pool item).isEmpty = false)
    (hacc : ((try_add pool item).1).isAccepted = true) :
    ((conflictsOf pool item).all
        (fun c => replacesOk pool.minIncreaseNum pool.minIncreaseDen c item) = true) ∧
    (try_add pool item).1 =
      AddResult.replaced ((conflictsOf pool item).map MempoolItem.id) := by
  have h1 : ¬ (conflictsOf pool item).isEmpty = true := by rw [hconf]; simp
  by_cases h2 : (conflictsOf pool item).all
      (fun c => replacesOk pool.minIncreaseNum pool.minIncreaseDen c item) = true
  · by_cases h3 :
      item ∈ (enforceCapacity
        { pool with
            items := item :: pool.items.filter (fun c => !(coinsConflict c item)) }).items
    · exact ⟨h2, by simp [try_add, h1, h2, h3]⟩
    · have : ((try_add pool item).1).isAccepted = false := by
        simp [try_add, h1, h2, h3, AddResult.isAccepted]
      rw [this] at hacc; cases hacc
  · have : ((try_add pool item).1).isAccepted = false := by
      simp [try_add, h1, h2, AddResult.isAccepted]
    rw [this] at hacc; cases hacc

/-- Pairwise-disjointness invariant over a list of pending items. -/
def disjInv (items : List MempoolItem) : Prop :=
  ∀ a ∈ items, ∀ b ∈ items, a ≠ b → disjointCoins a.spentCoins b.spentCoins = true

/-- A filtered item list is a subset of the original list. -/
theorem filterSubset (p : MempoolItem → Bool) (l : List MempoolItem) : l.filter p ⊆ l :=
  fun _ hx => (List.mem_filter.mp hx).1

/-- The invariant is monotone under taking subsets. -/
theorem disjInv_subset {l1 l2 : List MempoolItem} (h : l1 ⊆ l2) (hinv : disjInv l2) :
    disjInv l1 :=
  fun a ha b hb hab => hinv a (h ha) b (h hb) hab

/-- Every single operation preserves pairwise disjointness of consumed coins. -/
theorem disjInv_applyOp (st : ManagerState) (op : Op)
    (h : disjInv st.mempool.items) : disjInv ((applyOp st op).mempool).items := by
  cases op with
  | add item =>
      show disjInv ((try_add st.mempool item).2).items
      by_cases hacc : ((try_add st.mempool item).1).isAccepted = true
      · have hmem := try_add_accepted_mem st.mempool item hacc
        intro a ha b hb hab
        rcases hmem a ha with ha2 | ⟨ha2, ha3⟩
        · rcases hmem b hb with hb2 | ⟨hb2, hb3⟩
          · exact absurd (ha2.trans hb2.symm) hab
          · rw [ha2]
            exact (disjoint_of_not_conflict b item hb3).2
        · rcases hmem b hb with hb2 | ⟨hb2, hb3⟩
          · rw [hb2]
            exact (disjoint_of_not_conflict a item ha3).1
          · exact h a ha2 b hb2 hab
      · have hrej : ((try_add st.mempool item).1).isAccepted = false := by
          cases hb : ((try_add st.mempool item).1).isAccepted with
          | false => rfl
          | true => exact absurd hb hacc
        rw [try_add_not_accepted_eq st.mempool item hrej]
        exact h
  | removeCoins ids =>
      exact disjInv_subset (filterSubset _ _) h
  | removeIds ids =>
      exact disjInv_subset (filterSubset _ _) h
  | peak rec ids =>
      simp only [applyOp, new_peak]
      split
      · exact h
      · exact disjInv_subset ((filterSubset _ _).trans (filterSubset _ _)) h

/-- Pairwise disjointness is preserved by arbitrary operation sequences. -/
theorem disjInv_runOps (ops : List Op) (st : ManagerState) (h : disjInv st.mempool.items) :
    disjInv ((runOps st ops).mempool).items := by
  induction ops generalizing st with
  | nil => exact h
  | cons op ops ih => exact ih (applyOp st op) (disjInv_applyOp st op h)

/-- C2: in every reachable pool state, any two distinct simultaneously-pending
items have disjoint consumed coin-id sets (in particular, disjoint or one
dominating the other by at least the minimum replacement factor); and try_add
accepts a conflicting candidate only when it beats every conflicting item by
at least the minimum-increase factor, in which case it reports exactly the
conflicting items as evicted and keeps only the candidate plus non-conflicting
items, while a non-accepted try_add leaves the pool unchanged
(all-or-nothing). -/
theorem C2_no_double_admission :
    (∀ (maxTotalCost num den : Nat) (constants : Constants) (ops : List Op)
        (a b : MempoolItem),
        a ∈ ((runOps (initState maxTotalCost num den constants) ops).mempool).items →
        b ∈ ((runOps (initState maxTotalCost num den constants) ops).mempool).items →
        a ≠ b →
        disjointCoins a.spentCoins b.spentCoins = true ∨
          replacesOk num den b a = true ∨ replacesOk num den a b = true) ∧
    (∀ (pool : Mempool) (item : MempoolItem),
        (conflictsOf pool item).isEmpty = false →
        (((try_add pool item).1).isAccepted = true →
          ((conflictsOf pool item).all
              (fun c => replacesOk pool.minIncreaseNum pool.minIncreaseDen c item) = true) ∧
          (try_add pool item).1 =
            AddResult.replaced ((conflictsOf pool item).map MempoolItem.id) ∧
          ∀ x ∈ ((try_add pool item).2).items,
            x = item ∨ (x ∈ pool.items ∧ coinsConflict x item = false)) ∧
        (((try_add pool item).1).isAccepted = false → (try_add pool item).2 = pool)) := by
  constructor
  · intro maxTotalCost num den constants ops a b ha hb hab
    have hinv : disjInv ((runOps (initState maxTotalCost num den constants) ops).mempool).items := by
      apply disjInv_runOps
      intro x hx
      simp [initState] at hx
    exact Or.inl (hinv a ha b hb hab)
  · intro pool item hconf
    constructor
    · intro hacc
      obtain ⟨hall, hres⟩ := try_add_conflict_accepted pool item hconf hacc
      exact ⟨hall, hres, try_add_accepted_mem pool item hacc⟩
    · intro hrej
      exact try_add_not_accepted_eq pool item hrej

/-- Non-conflicting items used by the C2 witness run. -/
def witnessItemA3 : MempoolItem :=
  { id := 3, cost := 10, fee := 5, spentCoins := [7], conditions := [], admissionTime := 0 }

/-- Second non-conflicting item used by the C2 witness run. -/
def witnessItemA4 : MempoolItem :=
  { id := 4, cost := 10, fee := 6, spentCoins := [8], conditions := [], admissionTime := 1 }

/-- Operation sequence admitting the two witness items. -/
def witnessOps : List Op := [Op.add witnessItemA3, Op.add witnessItemA4]

/-- A one-item pool used to exercise the conflicting-replacement path. -/
def witnessPoolA : Mempool :=
  { items := [{ id := 1, cost := 10, fee := 5, spentCoins := [1], conditions := [],
                admissionTime := 0 }],
    maxTotalCost := 100, minIncreaseNum := 11, minIncreaseDen := 10 }

/-- A conflicting candidate whose fee-per-cost beats the pending item by more
than the 11/10 minimum-increase factor. -/
def witnessItemB : MempoolItem :=
  { id := 2, cost := 10, fee := 60, spentCoins := [1], conditions := [], admissionTime := 1 }

theorem C2_no_double_admission_witness :
    (disjointCoins witnessItemA3.spentCoins witnessItemA4.spentCoins = true ∨
      replacesOk 11 10 witnessItemA4 witnessItemA3 = true ∨
      replacesOk 11 10 witnessItemA3 witnessItemA4 = true) ∧
    (((conflictsOf witnessPoolA witnessItemB).all
        (fun c =>
          replacesOk witnessPoolA.minIncreaseNum witnessPoolA.minIncreaseDen c witnessItemB) =
        true) ∧
      (try_add witnessPoolA witnessItemB).1 =
        AddResult.replaced ((conflictsOf witnessPoolA witnessItemB).map MempoolItem.id) ∧
      ∀ x ∈ ((try_add witnessPoolA witnessItemB).2).items,
        x = witnessItemB ∨
          (x ∈ witnessPoolA.items ∧ coinsConflict x witnessItemB = false)) :=
  ⟨C2_no_double_admission.1 100 11 10 ⟨100⟩ witnessOps witnessItemA3 witnessItemA4
      (by decide) (by decide) (by decide),
   (C2_no_double_admission.2 witnessPoolA witnessItemB (by decide)).1 (by decide)⟩

/-- A coin: parent coin id, puzzle hash, amount (ids as naturals). -/
structure Coin where
  parentCoinId : Nat
  puzzleHash : Nat
  amount : Nat
  deriving DecidableEq, Repr

/-- A coin spend: the coin plus its puzzle (script) and solution (script
input), both opaque to the mempool and modelled as naturals. -/
structure CoinSpend where
  coin : Coin
  puzzle : Nat
  solution : Nat
  deriving DecidableEq, Repr

/-- A spend bundle: an ordered list of coin spends plus one aggregated
signature. -/
structure SpendBundle where
  coinSpends : List CoinSpend
  aggregatedSignature : Nat
  deriving DecidableEq, Repr

/-- A raw condition as produced by the external extractor: an opcode and its
two numeric arguments. -/
structure RawCondition where
  opcode : Nat
  arg1 : Nat
  arg2 : Nat
  deriving DecidableEq, Repr

/-- Deterministic rejection reasons of pre-validation. -/
inductive ValidationError where
  | executionFailed
  | costExceeded
  | badSignature
  | unknownCondition
  | negativeFee
  deriving DecidableEq, Repr

/-- The outcome of a successful pre-validation: the summed execution cost, the
fee, and the parsed conditions per coin spend. -/
structure ValidatedBundle where
  cost : Nat
  fee : Nat
  conditionsPerCoin : List (List Condition)
  deriving DecidableEq, Repr

/-- Modelled from the spec: parse one raw condition, mapping the known opcodes
to normalized conditions and rejecting unknown opcodes. -/
def parseCondition (rc : RawCondition) : Option Condition :=
  if rc.opcode = 51 then some (Condition.createCoin rc.arg1 rc.arg2)
  else if rc.opcode = 81 then some (Condition.assertSecondsAbsolute rc.arg1)
  else if rc.opcode = 83 then some (Condition.assertHeightAbsolute rc.arg1)
  else if rc.opcode = 85 then some (Condition.assertBeforeSecondsAbsolute rc.arg1)
  else if rc.opcode = 87 then some (Condition.assertBeforeHeightAbsolute rc.arg1)
  else none

/-- Parse a list of raw conditions, failing on the first unknown opcode. -/
def parseConditions (rcs : List RawCondition) : Option (List Condition) :=
  rcs.mapM parseCondition

/-- The amount created by a condition, when it creates a coin. -/
def createdAmount : Condition → Option Nat
  | Condition.createCoin _ amt => some amt
  | _ => none

/-- Run the injected cost-and-condition extractor over every coin spend,
summing the costs and collecting the raw conditions per coin. -/
def runExtractor (execute : Nat → Nat → Option (Nat × List RawCondition)) :
    List CoinSpend → Option (Nat × List (List RawCondition))
  | [] => some (0, [])
  | cs :: rest =>
      match execute cs.puzzle cs.solution with
      | none => none
      | some (c, conds) =>
          match runExtractor execute rest with
          | none => none
          | some (restCost, restConds) => some (c + restCost, conds :: restConds)

/-- Modelled from the spec: the pre-validation pipeline, a pure function of
the bundle, the injected collaborators and the consensus constants: (a) run
the extractor on every coin spend and sum costs, rejecting when the sum
exceeds the per-transaction limit; (b) verify the aggregated signature over
the derived messages; (c) parse the conditions per coin, rejecting unknown
opcodes; (d) compute fee as spent minus created amounts, rejecting a negative
fee. -/
def preValidateCore
    (execute : Nat → Nat → Option (Nat × List RawCondition))
    (verify : Nat → List Nat → Bool)
    (messagesOf : CoinSpend → List Nat)
    (constants : Constants) (bundle : SpendBundle) :
    Except ValidationError ValidatedBundle :=
  match runExtractor execute bundle.coinSpends with
  | none => Except.error ValidationError.executionFailed
  | some (totalC, rawPerCoin) =>
      if constants.maxTxCost < totalC then Except.error ValidationError.costExceeded
      else if !(verify bundle.aggregatedSignature ((bundle.coinSpends.map messagesOf).flatten)) then
        Except.error ValidationError.badSignature
      else
        match rawPerCoin.mapM parseConditions with
        | none => Except.error ValidationError.unknownCondition
        | some condsPerCoin =>
            let spent := (bundle.coinSpends.map (fun cs => cs.coin.amount)).sum
            let created := ((condsPerCoin.flatten).filterMap createdAmount).sum
            if spent < created then Except.error ValidationError.negativeFee
            else
              Except.ok { cost := totalC, fee := spent - created,
                          conditionsPerCoin := condsPerCoin }

/-- Modelled from the spec: pre_validate_spendbundle as seen from the manager:
it reads only the consensus constants out of the manager state, runs the pure
pipeline, and returns the manager state untouched. -/
def pre_validate_spendbundle
    (execute : Nat → Nat → Option (Nat × List RawCondition))
    (verify : Nat → List Nat → Bool)
    (messagesOf : CoinSpend → List Nat)
    (st : ManagerState) (bundle : SpendBundle) :
    Except ValidationError ValidatedBundle × ManagerState :=
  (preValidateCore execute verify messagesOf st.constants bundle, st)

/-- C7: pre_validate_spendbundle is a pure function of the bundle and the
consensus constants: it never changes the pool state, and calling it a second
time (on the state returned by the first call, hence with the same constants)
returns a result equal to the first. -/
theorem C7_pre_validation_purity
    (execute : Nat → Nat → Option (Nat × List RawCondition))
    (verify : Nat → List Nat → Bool)
    (messagesOf : CoinSpend → List Nat)
    (st : ManagerState) (bundle : SpendBundle) :
    (pre_validate_spendbundle execute verify messagesOf st bundle).2 = st ∧
    (pre_validate_spendbundle execute verify messagesOf
        ((pre_validate_spendbundle execute verify messagesOf st bundle).2) bundle).1 =
      (pre_validate_spendbundle execute verify messagesOf st bundle).1 :=
  ⟨rfl, rfl⟩

/-- C8: calling new_peak twice in a row with the same block record and the
same spent-coin-id set (a no-op reorg) leaves the manager state, and in
particular the Mempool contents, identical to the state after calling it
once: the duplicate peak is rejected as a no-op. -/
theorem C8_new_peak_idempotent (st : ManagerState) (rec : BlockRecord)
    (spentCoinIds : List CoinId) :
    new_peak (new_peak st rec spentCoinIds) rec spentCoinIds =
      new_peak st rec spentCoinIds := by
  by_cases hd : (match st.peak with
      | some p => decide (rec.height ≤ p.height)
      | none => false) = true
  · have h1 : new_peak st rec spentCoinIds = st := by
      unfold new_peak
      rw [if_pos hd]
    rw [h1, h1]
  · have hpk : (new_peak st rec spentCoinIds).peak = some rec := by
      unfold new_peak
      rw [if_neg hd]
    have h2 : ∀ st2 : ManagerState, st2.peak = some rec →
        new_peak st2 rec spentCoinIds = st2 := by
      intro st2 h
      unfold new_peak
      rw [h]
      simp
    exact h2 (new_peak st rec spentCoinIds) hpk

/-- A fee-estimate RPC request: the optional JSON fields of the request
dictionary.  A serialized spend bundle is opaque to request validation and
modelled as a natural number. -/
structure FeeEstimateRequest where
  targetTimes : Option (List Int)
  cost : Option Int
  spendBundle : Option Nat
  spendType : Option String
  spendCount : Option Int
  deriving DecidableEq, Repr

/-- The error kinds the RPC endpoint can raise: request-validation errors
(Python ValueError), type errors, and dictionary lookup errors (Python
KeyError, carrying the missing key). -/
inductive RpcError where
  | valueError (msg : String)
  | typeError (msg : String)
  | keyError (key : String)
  deriving DecidableEq, Repr

/-- The successful response of get_fee_estimate: the per-target estimates plus
snapshot fields of the node. -/
structure FeeEstimateResponse where
  estimates : List Nat
  targetTimes : List Int
  currentFeeRate : Nat
  mempoolSize : Nat
  mempoolMaxSize : Nat
  fullNodeSynced : Bool
  peakHeight : Nat
  lastPeakTimestamp : Nat
  feeRateLastBlock : Rat
  feesLastBlock : Nat
  lastBlockCost : Nat
  lastTxBlockHeight : Nat
  mempoolFees : Nat
  numSpends : Nat
  deriving DecidableEq, Repr

/-- Modelled from the spec: the canonical cost table for common transaction
shapes; the send_xch_transaction entry is the one named by the repository
tests, the remaining entries are representative shapes. -/
def spendTypeCostTable : List (String × Nat) :=
  [("send_xch_transaction", 9401710),
   ("cat_spend", 36382111),
   ("take_offer", 721393265),
   ("cancel_offer", 212443993),
   ("nft_transfer_nft", 74385541),
   ("create_new_did", 57360396)]

/-- Look up the canonical cost of a spend type by name. -/
def lookupSpendTypeCost (name : String) : Option Nat :=
  (spendTypeCostTable.find? (fun e => e.1 == name)).map Prod.snd

/-- The snapshot of full-node state that the fee-estimate RPC reads: the peak
pointer, sync status, mempool counters, last-block fee statistics, the fee
estimator bucket table (fee-rate, estimated confirmation seconds), and the
injected cost function for serialized bundles. -/
structure RpcNode where
  peak : Option BlockRecord
  synced : Bool
  mempoolSize : Nat
  mempoolMaxSize : Nat
  mempoolTotalCost : Nat
  mempoolFees : Nat
  numSpends : Nat
  currentFeeRate : Nat
  feeRateLastBlock : Rat
  feesLastBlock : Nat
  lastBlockCost : Nat
  lastTxBlockHeight : Nat
  buckets : List (Nat × Nat)
  bundleCost : Nat → Nat

/-- Modelled from the spec: search the bucket table for the lowest fee-rate
whose estimated confirmation time is within the target; if no bucket
qualifies, answer the highest bucket fee-rate. -/
def bucketSearch (buckets : List (Nat × Nat)) (t : Int) : Nat :=
  match (buckets.filter (fun b => decide ((b.2 : Int) ≤ t))).map Prod.fst with
  | [] => (buckets.map Prod.fst).foldr max 0
  | r :: rs => rs.foldr min r

/-- Modelled from the spec: estimated minimum fee-rate for one target time;
zero whenever the mempool is currently empty or below capacity (anything gets
in immediately). -/
def estimateRate (node : RpcNode) (t : Int) : Nat :=
  if node.mempoolSize = 0 ∨ node.mempoolTotalCost < node.mempoolMaxSize then 0
  else bucketSearch node.buckets t

/-- How many of the three mutually exclusive request fields are present. -/
def countPresent (req : FeeEstimateRequest) : Nat :=
  (if req.spendBundle.isSome then 1 else 0) +
    (if req.cost.isSome then 1 else 0) +
    (if req.spendType.isSome then 1 else 0)

/-- Message of the exactly-one-of-three request-validation error. -/
def exactlyOneMsg : String :=
  "Request must contain exactly one of spend_bundle, cost, spend_type"

/-- Message of the missing target_times request-validation error. -/
def targetTimesMissingMsg : String :=
  "Request must contain target_times"

/-- Message of the non-positive target time request-validation error. -/
def nonPositiveTimeMsg : String :=
  "target_times entries must be positive"

/-- Message of the negative cost request-validation error. -/
def negativeCostMsg : String :=
  "cost must be non-negative"

/-- Message of the negative spend_count request-validation error. -/
def negativeSpendCountMsg : String :=
  "spend_count must be non-negative"

/-- Modelled from the spec: resolve the transaction cost from whichever of the
three request forms is present: an explicit cost (rejected when negative), a
serialized spend bundle (costed by the injected cost function), or a spend
type (looked up in the canonical cost table, scaled by a non-negative
spend_count; a missing table entry is a key lookup failure). -/
def resolveCost (node : RpcNode) (req : FeeEstimateRequest) : Except RpcError Nat :=
  match req.cost with
  | some c =>
      if c < 0 then Except.error (RpcError.valueError negativeCostMsg)
      else Except.ok c.toNat
  | none =>
      match req.spendBundle with
      | some sb => Except.ok (node.bundleCost sb)
      | none =>
          match req.spendType with
          | some name =>
              match lookupSpendTypeCost name with
              | none => Except.error (RpcError.keyError name)
              | some c =>
                  match req.spendCount with
                  | none => Except.ok c
                  | some n =>
                      if n < 0 then Except.error (RpcError.valueError negativeSpendCountMsg)
                      else Except.ok (c * n.toNat)
          | none => Except.error (RpcError.valueError exactlyOneMsg)

/-- Modelled from the spec: the get_fee_estimate RPC endpoint.  Request-shape
validation comes first: exactly one of cost, spend_bundle, spend_type must be
present, target_times is required, and a target time of zero or below is an
input error.  Then the cost is resolved and one estimate is produced per
target time, alongside snapshot fields of the node (all zeros and not synced
when there is no peak). -/
def get_fee_estimate (node : RpcNode) (req : FeeEstimateRequest) :
    Except RpcError FeeEstimateResponse :=
  if countPresent req ≠ 1 then Except.error (RpcError.valueError exactlyOneMsg)
  else
    match req.targetTimes with
    | none => Except.error (RpcError.valueError targetTimesMissingMsg)
    | some ts =>
        if ts.any (fun t => decide (t ≤ 0)) then
          Except.error (RpcError.valueError nonPositiveTimeMsg)
        else
          match resolveCost node req with
          | Except.error e => Except.error e
          | Except.ok txCost =>
              Except.ok
                { estimates := ts.map (fun t => estimateRate node t * txCost),
                  targetTimes := ts,
                  currentFeeRate := node.currentFeeRate,
                  mempoolSize := node.mempoolSize,
                  mempoolMaxSize := node.mempoolMaxSize,
                  fullNodeSynced := node.synced,
                  peakHeight := (node.peak.map BlockRecord.height).getD 0,
                  lastPeakTimestamp := (node.peak.map BlockRecord.timestamp).getD 0,
                  feeRateLastBlock := node.feeRateLastBlock,
                  feesLastBlock := node.feesLastBlock,
                  lastBlockCost := node.lastBlockCost,
                  lastTxBlockHeight := node.lastTxBlockHeight,
                  mempoolFees := node.mempoolFees,
                  numSpends := node.numSpends }

/-- A node with no peak yet, an empty mempool, and all statistics zero. -/
def nodeZero : RpcNode :=
  { peak := none, synced := false, mempoolSize := 0, mempoolMaxSize := 0,
    mempoolTotalCost := 0, mempoolFees := 0, numSpends := 0, currentFeeRate := 0,
    feeRateLastBlock := 0, feesLastBlock := 0, lastBlockCost := 0,
    lastTxBlockHeight := 0, buckets := [], bundleCost := fun _ => 0 }

/-- C3: for every get_fee_estimate request, exactly one of cost, spend_bundle,
spend_type must be present: when none of the three, or two or more of them,
are present, the call fails with the exactly-one request-validation error
instead of returning estimates. -/
theorem C3_exactly_one_of_three (node : RpcNode) (req : FeeEstimateRequest)
    (h : countPresent req ≠ 1) :
    get_fee_estimate node req = Except.error (RpcError.valueError exactlyOneMsg) := by
  unfold get_fee_estimate
  rw [if_pos h]

/-- The empty request: none of the fields present. -/
def emptyRequest : FeeEstimateRequest :=
  { targetTimes := none, cost := none, spendBundle := none, spendType := none,
    spendCount := none }

theorem C3_exactly_one_of_three_witness :
    countPresent emptyRequest ≠ 1 ∧
      get_fee_estimate nodeZero emptyRequest =
        Except.error (RpcError.valueError exactlyOneMsg) :=
  ⟨by decide, C3_exactly_one_of_three nodeZero emptyRequest (by decide)⟩

/-- C4: a request whose target_times list contains a zero or negative entry
fails with the request-validation error for non-positive target times: zero is
rejected, not treated as a valid horizon. -/
theorem C4_nonpositive_target_time (node : RpcNode) (req : FeeEstimateRequest)
    (ts : List Int) (t : Int) (h1 : countPresent req = 1)
    (h2 : req.targetTimes = some ts) (h3 : t ∈ ts) (h4 : t ≤ 0) :
    get_fee_estimate node req = Except.error (RpcError.valueError nonPositiveTimeMsg) := by
  unfold get_fee_estimate
  rw [if_neg (not_not_intro h1), h2]
  have hany : ts.any (fun x => decide (x ≤ 0)) = true :=
    List.any_eq_true.mpr ⟨t, h3, by simpa using h4⟩
  simp [hany]

/-- The request of the repository test test_negative_time. -/
def negativeTimeRequest : FeeEstimateRequest :=
  { targetTimes := some [-1], cost := some 1, spendBundle := none, spendType := none,
    spendCount := none }

theorem C4_nonpositive_target_time_witness :
    countPresent negativeTimeRequest = 1 ∧
      get_fee_estimate nodeZero negativeTimeRequest =
        Except.error (RpcError.valueError nonPositiveTimeMsg) :=
  ⟨by decide,
   C4_nonpositive_target_time nodeZero negativeTimeRequest [-1] (-1)
     (by decide) rfl (by decide) (by decide)⟩

/-- C9: on a node with no peak yet, a request with an empty target_times list
and a cost does not raise: it returns the all-zero snapshot with
full_node_synced reported as false. -/
theorem C9_empty_peak_snapshot (c : Nat) :
    get_fee_estimate nodeZero
        { targetTimes := some [], cost := some (c : Int), spendBundle := none,
          spendType := none, spendCount := none } =
      Except.ok
        { estimates := [], targetTimes := [], currentFeeRate := 0, mempoolSize := 0,
          mempoolMaxSize := 0, fullNodeSynced := false, peakHeight := 0,
          lastPeakTimestamp := 0, feeRateLastBlock := 0, feesLastBlock := 0,
          lastBlockCost := 0, lastTxBlockHeight := 0, mempoolFees := 0,
          numSpends := 0 } := by
  have hc : ¬((c : Int) < 0) := by omega
  simp [get_fee_estimate, countPresent, resolveCost, nodeZero, hc]

/-- C5 counterexample: a request with an empty target_times list and exactly
one of the three fields present (here an unknown spend_type) does not succeed
with empty estimates: it fails with a key lookup error. -/
theorem C5_counterexample :
    countPresent
        { targetTimes := some ([] : List Int), cost := none, spendBundle := none,
          spendType := some ("INVALID"), spendCount := none } = 1 ∧
      get_fee_estimate nodeZero
          { targetTimes := some ([] : List Int), cost := none, spendBundle := none,
            spendType := some ("INVALID"), spendCount := none } =
        Except.error (RpcError.keyError ("INVALID")) :=
  ⟨by decide, rfl⟩

/-- C5 (amended): a request with an empty target_times list, exactly one of
cost, spend_bundle, spend_type present, and that field well-formed enough to
resolve a cost, succeeds and returns an empty estimates list and an empty
target_times list. -/
theorem C5_empty_target_times (node : RpcNode) (req : FeeEstimateRequest)
    (h1 : countPresent req = 1) (h2 : req.targetTimes = some ([] : List Int))
    (h3 : ∃ c, resolveCost node req = Except.ok c) :
    ∃ r, get_fee_estimate node req = Except.ok r ∧
      r.estimates = [] ∧ r.targetTimes = [] := by
  obtain ⟨c, hc⟩ := h3
  unfold get_fee_estimate
  rw [if_neg (not_not_intro h1), h2]
  simp [hc]

/-- The request of Scenario C: empty target_times with a cost of one. -/
def emptyTimesCostRequest : FeeEstimateRequest :=
  { targetTimes := some [], cost := some 1, spendBundle := none, spendType := none,
    spendCount := none }

theorem C5_empty_target_times_witness :
    countPresent emptyTimesCostRequest = 1 ∧
      ∃ r, get_fee_estimate nodeZero emptyTimesCostRequest = Except.ok r ∧
        r.estimates = [] ∧ r.targetTimes = [] :=
  ⟨by decide,
   C5_empty_target_times nodeZero emptyTimesCostRequest (by decide) rfl ⟨1, rfl⟩⟩

/-- C6: whenever the mempool is empty or below capacity, a well-formed
get_fee_estimate request receives the estimate zero for every requested target
time, with exactly one estimate per entry of target_times, in order. -/
theorem C6_below_capacity_estimates_zero (node : RpcNode) (req : FeeEstimateRequest)
    (ts : List Int) (h1 : countPresent req = 1) (h2 : req.targetTimes = some ts)
    (h3 : ∀ t ∈ ts, 0 < t) (h4 : ∃ c, resolveCost node req = Except.ok c)
    (h5 : node.mempoolSize = 0 ∨ node.mempoolTotalCost < node.mempoolMaxSize) :
    ∃ r, get_fee_estimate node req = Except.ok r ∧
      r.estimates = ts.map (fun _ => 0) ∧ r.targetTimes = ts := by
  obtain ⟨c, hc⟩ := h4
  have hany : ts.any (fun x => decide (x ≤ 0)) = false := by
    cases hb : ts.any (fun x => decide (x ≤ 0)) with
    | false => rfl
    | true =>
        obtain ⟨t, ht, hdec⟩ := List.any_eq_true.mp hb
        have hpos := h3 t ht
        simp at hdec
        omega
  have hrate : ∀ t : Int, estimateRate node t = 0 := by
    intro t
    unfold estimateRate
    rw [if_pos h5]
  unfold get_fee_estimate
  rw [if_neg (not_not_intro h1), h2]
  simp [hany, hc, hrate]

/-- A well-formed multi-target request used by the C6 witness. -/
def multiTargetRequest : FeeEstimateRequest :=
  { targetTimes := some [1, 5, 10], cost := some 1, spendBundle := none,
    spendType := none, spendCount := none }

theorem C6_below_capacity_estimates_zero_witness :
    (nodeZero.mempoolSize = 0 ∨ nodeZero.mempoolTotalCost < nodeZero.mempoolMaxSize) ∧
      ∃ r, get_fee_estimate nodeZero multiTargetRequest = Except.ok r ∧
        r.estimates = ([1, 5, 10] : List Int).map (fun _ => 0) ∧
        r.targetTimes = [1, 5, 10] :=
  ⟨Or.inl rfl,
   C6_below_capacity_estimates_zero nodeZero multiTargetRequest [1, 5, 10]
     (by decide) rfl (by decide) ⟨1, rfl⟩ (Or.inl rfl)⟩

/-- C10: a shape-valid request whose spend_type is absent from the canonical
cost table fails with a key lookup error carrying the unknown name, not with
the request-validation value error used for malformed shapes. -/
theorem C10_unknown_spend_type (node : RpcNode) (req : FeeEstimateRequest)
    (name : String) (ts : List Int)
    (h1 : req.spendType = some name) (h2 : req.cost = none) (h3 : req.spendBundle = none)
    (h4 : req.targetTimes = some ts) (h5 : ∀ t ∈ ts, 0 < t)
    (h6 : lookupSpendTypeCost name = none) :
    get_fee_estimate node req = Except.error (RpcError.keyError name) ∧
      ∀ msg, get_fee_estimate node req ≠ Except.error (RpcError.valueError msg) := by
  have h0 : countPresent req = 1 := by simp [countPresent, h1, h2, h3]
  have hany : ts.any (fun x => decide (x ≤ 0)) = false := by
    cases hb : ts.any (fun x => decide (x ≤ 0)) with
    | false => rfl
    | true =>
        obtain ⟨t, ht, hdec⟩ := List.any_eq_true.mp hb
        have hpos := h5 t ht
        simp at hdec
        omega
  have hres : resolveCost node req = Except.error (RpcError.keyError name) := by
    unfold resolveCost
    rw [h2]
    simp [h3, h1, h6]
  have heq : get_fee_estimate node req = Except.error (RpcError.keyError name) := by
    unfold get_fee_estimate
    rw [if_neg (not_not_intro h0), h4]
    simp [hany, hres]
  refine ⟨heq, ?_⟩
  intro msg hcontra
  rw [heq] at hcontra
  simp at hcontra

/-- The request of the repository test test_get_spendbundle_type_cost_missing. -/
def unknownTypeRequest : FeeEstimateRequest :=
  { targetTimes := some [1], cost := none, spendBundle := none,
    spendType := some ("INVALID"), spendCount := none }

theorem C10_unknown_spend_type_witness :
    lookupSpendTypeCost ("INVALID") = none ∧
      get_fee_estimate nodeZero unknownTypeRequest =
        Except.error (RpcError.keyError ("INVALID")) :=
  ⟨by decide,
   (C10_unknown_spend_type nodeZero unknownTypeRequest ("INVALID") [1]
     rfl rfl rfl rfl (by decide) (by decide)).1⟩

end ChiaMempool
